import Mathlib

/-
Verification of the QuakeSense edge firmware against its design document.

The embedding models the ESP32 firmware loop of the enhanced variant
(src/unnamed/part_000) together with the legacy variant (src/quakesnse.ino)
where the two differ.  The two variants share the continuous-shake detection
logic, the sound-correlation veto and the alarm handler verbatim; they differ
in the tunable thresholds (SHAKE_THRESHOLD_MS2 0.7 vs 0.8, MIN_SHAKE_DURATION
250 vs 350), in the SeismicEvent record (12 vs 5 fields) and in the JSON
serialization (12 vs 6 keys).  Accelerations are modelled over an arbitrary
linear ordered field (instantiated at the rationals for concrete evaluation
and at the reals where the sqrt computation of the sampler matters); `millis`
timestamps are natural numbers, with C unsigned subtraction `a - b` rendered
as truncated Nat subtraction, which agrees with the source for the monotone,
non-wrapping clock the firmware relies on.  Each call of `loop` reads the
clock several times within microseconds of each other; the model passes a
single `now` per tick, following the design note that the clock be injected
as a tick parameter.  Serial logging, the LCD and the blocking serial
recalibration command are external I/O and are not part of the modelled
state.
-/

set_option linter.unusedSectionVars false

namespace QuakeSense

/-- Tunable detection and alarm constants of the firmware
(DETECTION THRESHOLDS & LOGIC and ALARM SETTINGS blocks). -/
structure Config (α : Type*) where
  shakeThreshold : α
  soundThreshold : ℤ
  minShakeDuration : ℕ
  shakeResetTimeout : ℕ
  soundCorrelationWindow : ℕ
  alarmDuration : ℕ
  blinkInterval : ℕ
  deriving DecidableEq

/-- One tick of sampler data: the baseline-relative dynamic
accelerations dynX, dynY, dynZ, the derived horizontal and total magnitudes,
and the averaged sound reading (loop lines computing dynX..totalAccel and
readSoundLevel). -/
structure Input (α : Type*) where
  dynX : α
  dynY : α
  dynZ : α
  horizontalAccel : α
  totalAccel : α
  soundLevel : ℤ
  deriving DecidableEq

/-- The mutable globals of the firmware that the loop reads and writes, plus the
output pins driven by digitalWrite/tone.  `wasInAlarm` is the static local
of the enhanced loop. -/
structure FirmwareState where
  shakeStartTime : ℕ
  lastShakeSampleTime : ℕ
  potentialEarthquake : Bool
  lastSoundSpikeTime : ℕ
  baselineSound : ℤ
  alarmEndTime : ℕ
  lastBlinkTime : ℕ
  blinkState : Bool
  wasInAlarm : Bool
  buzzerOn : Bool
  redOn : Bool
  greenOn : Bool
  deriving DecidableEq

/-- The SeismicEvent struct of the enhanced firmware (part_000, 11 C fields;
deviceId is a constant added at serialization time). -/
structure SeismicEvent (α : Type*) where
  horizontalAccel : α
  totalAccel : α
  verticalAccel : α
  xAccel : α
  yAccel : α
  zAccel : α
  peakGroundAccel : α
  soundLevel : ℤ
  isSoundCorrelated : Bool
  durationMs : ℕ
  timestamp : ℕ
  deriving DecidableEq

/-- The SeismicEvent struct of the legacy firmware (quakesnse.ino lines 61-67). -/
structure SeismicEventLegacy (α : Type*) where
  horizontalAccel : α
  totalAccel : α
  soundLevel : ℤ
  isSoundCorrelated : Bool
  timestamp : ℕ
  deriving DecidableEq

variable {α : Type*} [LinearOrderedField α]

/-- Sound monitoring step of the loop: if the averaged reading exceeds
baselineSound + SOUND_THRESHOLD, record the spike time. -/
def soundStep (cfg : Config α) (st : FirmwareState) (now : ℕ) (inp : Input α) :
    FirmwareState :=
  if st.baselineSound + cfg.soundThreshold < inp.soundLevel then
    { st with lastSoundSpikeTime := now }
  else st

/-- The SeismicEvent record built at the confirmation tick of the enhanced
loop: duration = millis() - shakeStartTime, soundCorrelated from the spike
tracker, peak acceleration max(totalAccel, horizontalAccel * 1.2). -/
def confirmEvent (cfg : Config α) (st : FirmwareState) (now : ℕ) (inp : Input α) :
    SeismicEvent α :=
  { horizontalAccel := inp.horizontalAccel
    totalAccel := inp.totalAccel
    verticalAccel := inp.dynZ
    xAccel := inp.dynX
    yAccel := inp.dynY
    zAccel := inp.dynZ
    peakGroundAccel := max inp.totalAccel (inp.horizontalAccel * (6 / 5))
    soundLevel := inp.soundLevel
    isSoundCorrelated := decide (now - st.lastSoundSpikeTime < cfg.soundCorrelationWindow)
    durationMs := now - st.shakeStartTime
    timestamp := now }

/-- The CONTINUOUS SHAKE LOGIC block of the loop.  Returns the updated state
together with the event handed to sendEventToServer, when one is emitted. -/
def shakeStep (cfg : Config α) (st : FirmwareState) (now : ℕ) (inp : Input α) :
    FirmwareState × Option (SeismicEvent α) :=
  if cfg.shakeThreshold < inp.horizontalAccel then
    let st1 : FirmwareState := { st with lastShakeSampleTime := now }
    let st2 : FirmwareState :=
      if st1.potentialEarthquake then st1
      else { st1 with shakeStartTime := now, potentialEarthquake := true }
    if st2.potentialEarthquake ∧ cfg.minShakeDuration < now - st2.shakeStartTime then
      let ev := confirmEvent cfg st2 now inp
      if now - st2.lastSoundSpikeTime < cfg.soundCorrelationWindow then
        ({ st2 with potentialEarthquake := false, shakeStartTime := 0 }, some ev)
      else
        ({ st2 with alarmEndTime := now + cfg.alarmDuration,
                    potentialEarthquake := false, shakeStartTime := 0 }, some ev)
    else (st2, none)
  else
    if st.potentialEarthquake ∧ cfg.shakeResetTimeout < now - st.lastShakeSampleTime then
      ({ st with potentialEarthquake := false, shakeStartTime := 0 }, none)
    else (st, none)

/-- The Alarm Handler block of the loop: while millis() < alarmEndTime, flip
blinkState every BLINK_INTERVAL ms and drive buzzer/LEDs from it; otherwise
force the safe pattern (buzzer off, red off, green on). -/
def alarmStep (cfg : Config α) (st : FirmwareState) (now : ℕ) : FirmwareState :=
  if now < st.alarmEndTime then
    if cfg.blinkInterval ≤ now - st.lastBlinkTime then
      if !st.blinkState then
        { st with lastBlinkTime := now, blinkState := !st.blinkState, wasInAlarm := true,
                  buzzerOn := true, redOn := true, greenOn := false }
      else
        { st with lastBlinkTime := now, blinkState := !st.blinkState, wasInAlarm := false,
                  buzzerOn := false, redOn := false, greenOn := false }
    else st
  else
    { st with buzzerOn := false, redOn := false, greenOn := true }

/-- One iteration of loop(): sound monitoring, then the continuous shake
logic, then the alarm handler, with a single clock reading per tick. -/
def tick (cfg : Config α) (st : FirmwareState) (now : ℕ) (inp : Input α) :
    FirmwareState × Option (SeismicEvent α) :=
  let st1 := soundStep cfg st now inp
  let r := shakeStep cfg st1 now inp
  (alarmStep cfg r.1 now, r.2)

/-- Iterated ticks over a timed input trace, collecting the emitted events. -/
def runTicks (cfg : Config α) (st : FirmwareState) :
    List (ℕ × Input α) → FirmwareState × List (SeismicEvent α)
  | [] => (st, [])
  | ti :: rest =>
    let r := tick cfg st ti.1 ti.2
    let rr := runTicks cfg r.1 rest
    (rr.1, r.2.toList ++ rr.2)

/-- The literal 0.7 as a rational in lowest terms (kernel-computable form). -/
def ratZeroPointSeven : ℚ := ⟨7, 10, by norm_num, by norm_num⟩

/-- The literal 0.8 as a rational in lowest terms (kernel-computable form). -/
def ratZeroPointEight : ℚ := ⟨4, 5, by norm_num, by norm_num⟩

theorem ratZeroPointSeven_eq : ratZeroPointSeven = 7 / 10 := by
  rw [ratZeroPointSeven, Rat.mk'_eq_divInt, Rat.divInt_eq_div]
  norm_num

theorem ratZeroPointEight_eq : ratZeroPointEight = 4 / 5 := by
  rw [ratZeroPointEight, Rat.mk'_eq_divInt, Rat.divInt_eq_div]
  norm_num

/-- Constants of the enhanced firmware variant (src/unnamed/part_000):
SHAKE_THRESHOLD_MS2 = 0.7, SOUND_THRESHOLD = 2000, MIN_SHAKE_DURATION = 250,
SHAKE_RESET_TIMEOUT = 150, SOUND_CORRELATION_WINDOW = 1000,
ALARM_DURATION = 10000, BLINK_INTERVAL = 300. -/
def enhancedConfig : Config ℚ :=
  { shakeThreshold := ratZeroPointSeven
    soundThreshold := 2000
    minShakeDuration := 250
    shakeResetTimeout := 150
    soundCorrelationWindow := 1000
    alarmDuration := 10000
    blinkInterval := 300 }

/-- Constants of the legacy firmware variant (src/quakesnse.ino):
SHAKE_THRESHOLD_MS2 = 0.8, MIN_SHAKE_DURATION = 350, rest identical. -/
def legacyConfig : Config ℚ :=
  { shakeThreshold := ratZeroPointEight
    soundThreshold := 2000
    minShakeDuration := 350
    shakeResetTimeout := 150
    soundCorrelationWindow := 1000
    alarmDuration := 10000
    blinkInterval := 300 }

section StepLemmas

variable {α : Type*} [LinearOrderedField α] (cfg : Config α) (st : FirmwareState)
variable (now : ℕ) (inp : Input α)

theorem soundStep_quiet (h : inp.soundLevel ≤ st.baselineSound + cfg.soundThreshold) :
    soundStep cfg st now inp = st := by
  unfold soundStep
  exact if_neg (not_lt.mpr h)

theorem soundStep_spike (h : st.baselineSound + cfg.soundThreshold < inp.soundLevel) :
    soundStep cfg st now inp = { st with lastSoundSpikeTime := now } := by
  unfold soundStep
  exact if_pos h

@[simp] theorem soundStep_shakeStartTime :
    (soundStep cfg st now inp).shakeStartTime = st.shakeStartTime := by
  unfold soundStep
  split <;> rfl

@[simp] theorem soundStep_lastShakeSampleTime :
    (soundStep cfg st now inp).lastShakeSampleTime = st.lastShakeSampleTime := by
  unfold soundStep
  split <;> rfl

@[simp] theorem soundStep_potentialEarthquake :
    (soundStep cfg st now inp).potentialEarthquake = st.potentialEarthquake := by
  unfold soundStep
  split <;> rfl

@[simp] theorem soundStep_baselineSound :
    (soundStep cfg st now inp).baselineSound = st.baselineSound := by
  unfold soundStep
  split <;> rfl

@[simp] theorem soundStep_alarmEndTime :
    (soundStep cfg st now inp).alarmEndTime = st.alarmEndTime := by
  unfold soundStep
  split <;> rfl

@[simp] theorem soundStep_lastBlinkTime :
    (soundStep cfg st now inp).lastBlinkTime = st.lastBlinkTime := by
  unfold soundStep
  split <;> rfl

@[simp] theorem soundStep_blinkState :
    (soundStep cfg st now inp).blinkState = st.blinkState := by
  unfold soundStep
  split <;> rfl

@[simp] theorem alarmStep_shakeStartTime :
    (alarmStep cfg st now).shakeStartTime = st.shakeStartTime := by
  unfold alarmStep
  split
  · split
    · split <;> rfl
    · rfl
  · rfl

@[simp] theorem alarmStep_lastShakeSampleTime :
    (alarmStep cfg st now).lastShakeSampleTime = st.lastShakeSampleTime := by
  unfold alarmStep
  split
  · split
    · split <;> rfl
    · rfl
  · rfl

@[simp] theorem alarmStep_potentialEarthquake :
    (alarmStep cfg st now).potentialEarthquake = st.potentialEarthquake := by
  unfold alarmStep
  split
  · split
    · split <;> rfl
    · rfl
  · rfl

@[simp] theorem alarmStep_lastSoundSpikeTime :
    (alarmStep cfg st now).lastSoundSpikeTime = st.lastSoundSpikeTime := by
  unfold alarmStep
  split
  · split
    · split <;> rfl
    · rfl
  · rfl

@[simp] theorem alarmStep_baselineSound :
    (alarmStep cfg st now).baselineSound = st.baselineSound := by
  unfold alarmStep
  split
  · split
    · split <;> rfl
    · rfl
  · rfl

@[simp] theorem alarmStep_alarmEndTime :
    (alarmStep cfg st now).alarmEndTime = st.alarmEndTime := by
  unfold alarmStep
  split
  · split
    · split <;> rfl
    · rfl
  · rfl

theorem alarmStep_noflip (h1 : now < st.alarmEndTime)
    (h2 : now - st.lastBlinkTime < cfg.blinkInterval) :
    alarmStep cfg st now = st := by
  unfold alarmStep
  rw [if_pos h1, if_neg (not_le.mpr h2)]

theorem alarmStep_expired (h1 : st.alarmEndTime ≤ now) :
    alarmStep cfg st now = { st with buzzerOn := false, redOn := false, greenOn := true } := by
  unfold alarmStep
  rw [if_neg (not_lt.mpr h1)]

theorem shakeStep_start (hpe : st.potentialEarthquake = false)
    (hacc : cfg.shakeThreshold < inp.horizontalAccel) :
    shakeStep cfg st now inp =
      ({ st with lastShakeSampleTime := now, shakeStartTime := now,
                 potentialEarthquake := true }, none) := by
  simp [shakeStep, hpe, hacc, Nat.not_lt_zero]

theorem shakeStep_continue (hpe : st.potentialEarthquake = true)
    (hacc : cfg.shakeThreshold < inp.horizontalAccel)
    (hdur : now - st.shakeStartTime ≤ cfg.minShakeDuration) :
    shakeStep cfg st now inp = ({ st with lastShakeSampleTime := now }, none) := by
  simp [shakeStep, hpe, hacc, not_lt.mpr hdur]

theorem shakeStep_confirm (hpe : st.potentialEarthquake = true)
    (hacc : cfg.shakeThreshold < inp.horizontalAccel)
    (hdur : cfg.minShakeDuration < now - st.shakeStartTime)
    (hsnd : ¬ now - st.lastSoundSpikeTime < cfg.soundCorrelationWindow) :
    shakeStep cfg st now inp =
      ({ st with lastShakeSampleTime := now, alarmEndTime := now + cfg.alarmDuration,
                 potentialEarthquake := false, shakeStartTime := 0 },
       some (confirmEvent cfg st now inp)) := by
  simp [shakeStep, hpe, hacc, hdur, hsnd, confirmEvent]

theorem shakeStep_ignore (hpe : st.potentialEarthquake = true)
    (hacc : cfg.shakeThreshold < inp.horizontalAccel)
    (hdur : cfg.minShakeDuration < now - st.shakeStartTime)
    (hsnd : now - st.lastSoundSpikeTime < cfg.soundCorrelationWindow) :
    shakeStep cfg st now inp =
      ({ st with lastShakeSampleTime := now,
                 potentialEarthquake := false, shakeStartTime := 0 },
       some (confirmEvent cfg st now inp)) := by
  simp [shakeStep, hpe, hacc, hdur, hsnd, confirmEvent]

theorem shakeStep_below_noreset (hacc : inp.horizontalAccel ≤ cfg.shakeThreshold)
    (h : st.potentialEarthquake = false ∨ now - st.lastShakeSampleTime ≤ cfg.shakeResetTimeout) :
    shakeStep cfg st now inp = (st, none) := by
  rcases h with h | h
  · simp [shakeStep, not_lt.mpr hacc, h]
  · simp [shakeStep, not_lt.mpr hacc, not_lt.mpr h]

theorem shakeStep_below_reset (hacc : inp.horizontalAccel ≤ cfg.shakeThreshold)
    (hpe : st.potentialEarthquake = true)
    (h : cfg.shakeResetTimeout < now - st.lastShakeSampleTime) :
    shakeStep cfg st now inp =
      ({ st with potentialEarthquake := false, shakeStartTime := 0 }, none) := by
  simp [shakeStep, not_lt.mpr hacc, hpe, h]

theorem tick_def :
    tick cfg st now inp =
      (alarmStep cfg (shakeStep cfg (soundStep cfg st now inp) now inp).1 now,
       (shakeStep cfg (soundStep cfg st now inp) now inp).2) := rfl

@[simp] theorem runTicks_nil : runTicks cfg st [] = (st, []) := rfl

theorem runTicks_cons (ti : ℕ × Input α) (l : List (ℕ × Input α)) :
    runTicks cfg st (ti :: l) =
      ((runTicks cfg (tick cfg st ti.1 ti.2).1 l).1,
       (tick cfg st ti.1 ti.2).2.toList ++ (runTicks cfg (tick cfg st ti.1 ti.2).1 l).2) := rfl

theorem runTicks_append (l1 l2 : List (ℕ × Input α)) :
    runTicks cfg st (l1 ++ l2) =
      ((runTicks cfg (runTicks cfg st l1).1 l2).1,
       (runTicks cfg st l1).2 ++ (runTicks cfg (runTicks cfg st l1).1 l2).2) := by
  induction l1 generalizing st with
  | nil => simp
  | cons ti l1 ih =>
    simp only [List.cons_append, runTicks_cons, ih, List.append_assoc]

end StepLemmas

section MoreStepLemmas

variable {α : Type*} [LinearOrderedField α] (cfg : Config α) (st : FirmwareState)
variable (now : ℕ) (inp : Input α)

@[simp] theorem soundStep_buzzerOn : (soundStep cfg st now inp).buzzerOn = st.buzzerOn := by
  unfold soundStep
  split <;> rfl

@[simp] theorem soundStep_redOn : (soundStep cfg st now inp).redOn = st.redOn := by
  unfold soundStep
  split <;> rfl

@[simp] theorem soundStep_greenOn : (soundStep cfg st now inp).greenOn = st.greenOn := by
  unfold soundStep
  split <;> rfl

@[simp] theorem shakeStep_blinkState :
    (shakeStep cfg st now inp).1.blinkState = st.blinkState := by
  unfold shakeStep
  dsimp only
  repeat' split
  all_goals rfl

@[simp] theorem shakeStep_lastBlinkTime :
    (shakeStep cfg st now inp).1.lastBlinkTime = st.lastBlinkTime := by
  unfold shakeStep
  dsimp only
  repeat' split
  all_goals rfl

@[simp] theorem shakeStep_buzzerOn :
    (shakeStep cfg st now inp).1.buzzerOn = st.buzzerOn := by
  unfold shakeStep
  dsimp only
  repeat' split
  all_goals rfl

@[simp] theorem shakeStep_redOn :
    (shakeStep cfg st now inp).1.redOn = st.redOn := by
  unfold shakeStep
  dsimp only
  repeat' split
  all_goals rfl

@[simp] theorem shakeStep_greenOn :
    (shakeStep cfg st now inp).1.greenOn = st.greenOn := by
  unfold shakeStep
  dsimp only
  repeat' split
  all_goals rfl

@[simp] theorem shakeStep_baselineSound :
    (shakeStep cfg st now inp).1.baselineSound = st.baselineSound := by
  unfold shakeStep
  dsimp only
  repeat' split
  all_goals rfl

@[simp] theorem shakeStep_lastSoundSpikeTime :
    (shakeStep cfg st now inp).1.lastSoundSpikeTime = st.lastSoundSpikeTime := by
  unfold shakeStep
  dsimp only
  repeat' split
  all_goals rfl

/-- The shake phase either leaves the alarm deadline alone or it takes the
Confirmed branch, which is the only write to alarmEndTime and emits an
uncorrelated event.  A re-trigger of the Alarm Controller is therefore
exactly an uncorrelated emission. -/
theorem shakeStep_retrigger_char :
    (shakeStep cfg st now inp).1.alarmEndTime = st.alarmEndTime ∨
    ∃ ev, (shakeStep cfg st now inp).2 = some ev ∧ ev.isSoundCorrelated = false := by
  unfold shakeStep
  dsimp only
  repeat' split
  all_goals simp_all [confirmEvent]

theorem shakeStep_alarmEndTime_cases :
    (shakeStep cfg st now inp).1.alarmEndTime = st.alarmEndTime ∨
    (shakeStep cfg st now inp).1.alarmEndTime = now + cfg.alarmDuration := by
  unfold shakeStep
  dsimp only
  repeat' split
  all_goals simp

/-- Emission characterization of a tick: an event is handed to
sendEventToServer exactly when the sample is above the shake threshold, a
session was already open, and the session age strictly exceeds
MIN_SHAKE_DURATION; the event is then the confirmEvent record built over the
spike-updated state. -/
theorem tick_emit_eq :
    (tick cfg st now inp).2 =
      if cfg.shakeThreshold < inp.horizontalAccel ∧ st.potentialEarthquake = true ∧
          cfg.minShakeDuration < now - st.shakeStartTime then
        some (confirmEvent cfg (soundStep cfg st now inp) now inp)
      else none := by
  by_cases h1 : cfg.shakeThreshold < inp.horizontalAccel
  · by_cases h2 : st.potentialEarthquake = true
    · by_cases h3 : cfg.minShakeDuration < now - st.shakeStartTime
      · rw [if_pos ⟨h1, h2, h3⟩, tick_def]
        by_cases h4 : now - (soundStep cfg st now inp).lastSoundSpikeTime <
            cfg.soundCorrelationWindow
        · rw [shakeStep_ignore cfg _ now inp (by simp [h2]) h1 (by simpa using h3) h4]
        · rw [shakeStep_confirm cfg _ now inp (by simp [h2]) h1 (by simpa using h3) h4]
      · rw [if_neg (by tauto), tick_def,
          shakeStep_continue cfg _ now inp (by simp [h2]) h1
            (by simpa using not_lt.mp h3)]
    · have h2f : st.potentialEarthquake = false := by
        cases h : st.potentialEarthquake
        · rfl
        · exact absurd h h2
      rw [if_neg (by tauto), tick_def, shakeStep_start cfg _ now inp (by simp [h2f]) h1]
  · rw [if_neg (by tauto), tick_def]
    by_cases hres : (soundStep cfg st now inp).potentialEarthquake = true ∧
        cfg.shakeResetTimeout < now - (soundStep cfg st now inp).lastShakeSampleTime
    · rw [shakeStep_below_reset cfg _ now inp (not_lt.mp h1) hres.1 hres.2]
    · rcases not_and_or.mp hres with h | h
      · rw [shakeStep_below_noreset cfg _ now inp (not_lt.mp h1)
          (Or.inl (Bool.not_eq_true _ ▸ (by simpa using h)))]
      · rw [shakeStep_below_noreset cfg _ now inp (not_lt.mp h1) (Or.inr (not_lt.mp h))]

/-- At an emitting tick the session state is destroyed: potentialEarthquake
is cleared and shakeStartTime zeroed, in both terminal branches. -/
theorem tick_emit_state (ev : SeismicEvent α) (h : (tick cfg st now inp).2 = some ev) :
    (tick cfg st now inp).1.potentialEarthquake = false ∧
    (tick cfg st now inp).1.shakeStartTime = 0 := by
  rw [tick_emit_eq] at h
  by_cases hc : cfg.shakeThreshold < inp.horizontalAccel ∧ st.potentialEarthquake = true ∧
      cfg.minShakeDuration < now - st.shakeStartTime
  · rw [tick_def]
    by_cases h4 : now - (soundStep cfg st now inp).lastSoundSpikeTime <
        cfg.soundCorrelationWindow
    · rw [shakeStep_ignore cfg _ now inp (by simp [hc.2.1]) hc.1
        (by simpa using hc.2.2) h4]
      simp
    · rw [shakeStep_confirm cfg _ now inp (by simp [hc.2.1]) hc.1
        (by simpa using hc.2.2) h4]
      simp
  · rw [if_neg hc] at h
    exact absurd h (Option.noConfusion)

/-- A tick whose sample is at or below the shake threshold while the alarm
deadline has passed forces the safe output pattern and leaves the alarm
deadline unchanged. -/
theorem tick_expired_safe (hacc : inp.horizontalAccel ≤ cfg.shakeThreshold)
    (hend : st.alarmEndTime ≤ now) :
    (tick cfg st now inp).1.buzzerOn = false ∧
    (tick cfg st now inp).1.redOn = false ∧
    (tick cfg st now inp).1.greenOn = true ∧
    (tick cfg st now inp).1.alarmEndTime = st.alarmEndTime ∧
    (tick cfg st now inp).2 = none := by
  have hs2end : (shakeStep cfg (soundStep cfg st now inp) now inp).1.alarmEndTime =
      st.alarmEndTime := by
    by_cases hres : (soundStep cfg st now inp).potentialEarthquake = true ∧
        cfg.shakeResetTimeout < now - (soundStep cfg st now inp).lastShakeSampleTime
    · rw [shakeStep_below_reset cfg _ now inp hacc hres.1 hres.2]
      simp
    · rcases not_and_or.mp hres with h | h
      · rw [shakeStep_below_noreset cfg _ now inp hacc
          (Or.inl (Bool.not_eq_true _ ▸ (by simpa using h)))]
        simp
      · rw [shakeStep_below_noreset cfg _ now inp hacc (Or.inr (not_lt.mp h))]
        simp
  have hnoem : (tick cfg st now inp).2 = none := by
    rw [tick_emit_eq, if_neg (fun hc => absurd hc.1 (not_lt.mpr hacc))]
  refine ⟨?_, ?_, ?_, ?_, hnoem⟩ <;>
  · rw [tick_def, alarmStep_expired cfg _ now (by rw [hs2end]; exact hend)]
    try simp [hs2end]

theorem alarmStep_flip (h1 : now < st.alarmEndTime)
    (h2 : cfg.blinkInterval ≤ now - st.lastBlinkTime) :
    (alarmStep cfg st now).blinkState = !st.blinkState ∧
    (alarmStep cfg st now).lastBlinkTime = now ∧
    (alarmStep cfg st now).buzzerOn = !st.blinkState ∧
    (alarmStep cfg st now).redOn = !st.blinkState ∧
    (alarmStep cfg st now).greenOn = false := by
  unfold alarmStep
  rw [if_pos h1, if_pos h2]
  by_cases hb : st.blinkState <;> simp [hb]

/-- While the alarm deadline is ahead, a tick drives the blink machinery
exactly as the alarm handler dictates: a flip with outputs matching the new
blinkState when BLINK_INTERVAL has elapsed since lastBlinkTime, and no change
to the blink fields or outputs otherwise. -/
theorem tick_blink (hdur : 0 < cfg.alarmDuration) (halarm : now < st.alarmEndTime) :
    (cfg.blinkInterval ≤ now - st.lastBlinkTime →
      (tick cfg st now inp).1.blinkState = !st.blinkState ∧
      (tick cfg st now inp).1.lastBlinkTime = now ∧
      (tick cfg st now inp).1.buzzerOn = !st.blinkState ∧
      (tick cfg st now inp).1.redOn = !st.blinkState ∧
      (tick cfg st now inp).1.greenOn = false) ∧
    (now - st.lastBlinkTime < cfg.blinkInterval →
      (tick cfg st now inp).1.blinkState = st.blinkState ∧
      (tick cfg st now inp).1.lastBlinkTime = st.lastBlinkTime ∧
      (tick cfg st now inp).1.buzzerOn = st.buzzerOn ∧
      (tick cfg st now inp).1.redOn = st.redOn ∧
      (tick cfg st now inp).1.greenOn = st.greenOn) := by
  have hend : now < (shakeStep cfg (soundStep cfg st now inp) now inp).1.alarmEndTime := by
    rcases shakeStep_alarmEndTime_cases cfg (soundStep cfg st now inp) now inp with h | h
    · rw [h, soundStep_alarmEndTime]
      exact halarm
    · rw [h]
      omega
  constructor
  · intro hb
    have hfl := alarmStep_flip cfg (shakeStep cfg (soundStep cfg st now inp) now inp).1 now
      hend (by simpa using hb)
    rw [tick_def]
    simpa using hfl
  · intro hb
    have hnf := alarmStep_noflip cfg (shakeStep cfg (soundStep cfg st now inp) now inp).1 now
      hend (by simpa using hb)
    rw [tick_def]
    simp [hnf]

/-- Tick opening a session: Idle, sample above threshold, quiet sound. -/
theorem tick_start (hpe : st.potentialEarthquake = false)
    (hacc : cfg.shakeThreshold < inp.horizontalAccel)
    (hq : inp.soundLevel ≤ st.baselineSound + cfg.soundThreshold) :
    (tick cfg st now inp).2 = none ∧
    (tick cfg st now inp).1.potentialEarthquake = true ∧
    (tick cfg st now inp).1.shakeStartTime = now ∧
    (tick cfg st now inp).1.lastSoundSpikeTime = st.lastSoundSpikeTime ∧
    (tick cfg st now inp).1.baselineSound = st.baselineSound ∧
    (tick cfg st now inp).1.alarmEndTime = st.alarmEndTime := by
  have hts : tick cfg st now inp =
      (alarmStep cfg { st with lastShakeSampleTime := now, shakeStartTime := now, potentialEarthquake := true } now, none) := by
    rw [tick_def, soundStep_quiet cfg st now inp hq, shakeStep_start cfg st now inp hpe hacc]
  refine ⟨by simp [hts], ?_, ?_, ?_, ?_, ?_⟩ <;> simp [hts]

/-- Tick inside an open session with a loud sample: the spike time moves to
now, the session survives unchanged, nothing is emitted. -/
theorem tick_analyzing_spike (hpe : st.potentialEarthquake = true)
    (hacc : cfg.shakeThreshold < inp.horizontalAccel)
    (hdur : now - st.shakeStartTime ≤ cfg.minShakeDuration)
    (hloud : st.baselineSound + cfg.soundThreshold < inp.soundLevel) :
    (tick cfg st now inp).2 = none ∧
    (tick cfg st now inp).1.potentialEarthquake = true ∧
    (tick cfg st now inp).1.shakeStartTime = st.shakeStartTime ∧
    (tick cfg st now inp).1.lastSoundSpikeTime = now ∧
    (tick cfg st now inp).1.baselineSound = st.baselineSound ∧
    (tick cfg st now inp).1.alarmEndTime = st.alarmEndTime := by
  have hts : tick cfg st now inp =
      (alarmStep cfg { st with lastSoundSpikeTime := now, lastShakeSampleTime := now } now, none) := by
    rw [tick_def, soundStep_spike cfg st now inp hloud,
      shakeStep_continue cfg _ now inp (by simpa using hpe) hacc (by simpa using hdur)]
  refine ⟨by simp [hts], ?_, ?_, ?_, ?_, ?_⟩ <;> simp [hts, hpe]

/-- Confirmation tick: session older than MIN_SHAKE_DURATION, sample above
threshold and quiet, last sound spike outside the correlation window.  The
event goes out uncorrelated and the alarm is armed for ALARM_DURATION. -/
theorem tick_confirmed (hpe : st.potentialEarthquake = true)
    (hacc : cfg.shakeThreshold < inp.horizontalAccel)
    (hdur : cfg.minShakeDuration < now - st.shakeStartTime)
    (hq : inp.soundLevel ≤ st.baselineSound + cfg.soundThreshold)
    (hsnd : ¬ now - st.lastSoundSpikeTime < cfg.soundCorrelationWindow) :
    (tick cfg st now inp).2 = some (confirmEvent cfg st now inp) ∧
    (confirmEvent cfg st now inp).isSoundCorrelated = false ∧
    (confirmEvent cfg st now inp).durationMs = now - st.shakeStartTime ∧
    (tick cfg st now inp).1.alarmEndTime = now + cfg.alarmDuration ∧
    (tick cfg st now inp).1.potentialEarthquake = false ∧
    (tick cfg st now inp).1.shakeStartTime = 0 := by
  have hts : tick cfg st now inp =
      (alarmStep cfg { st with lastShakeSampleTime := now, alarmEndTime := now + cfg.alarmDuration, potentialEarthquake := false, shakeStartTime := 0 } now, some (confirmEvent cfg st now inp)) := by
    rw [tick_def, soundStep_quiet cfg st now inp hq,
      shakeStep_confirm cfg _ now inp (by simpa using hpe) hacc (by simpa using hdur)
        (by simpa using hsnd)]
  refine ⟨by simp [hts], by simp [confirmEvent, hsnd], by simp [confirmEvent], ?_, ?_, ?_⟩ <;>
    simp [hts]

/-- Veto tick: like a confirmation tick but with the last sound spike inside
the correlation window.  The event goes out flagged sound-correlated, the
session is destroyed, and the alarm deadline is not touched. -/
theorem tick_ignored (hpe : st.potentialEarthquake = true)
    (hacc : cfg.shakeThreshold < inp.horizontalAccel)
    (hdur : cfg.minShakeDuration < now - st.shakeStartTime)
    (hq : inp.soundLevel ≤ st.baselineSound + cfg.soundThreshold)
    (hsnd : now - st.lastSoundSpikeTime < cfg.soundCorrelationWindow) :
    (tick cfg st now inp).2 = some (confirmEvent cfg st now inp) ∧
    (confirmEvent cfg st now inp).isSoundCorrelated = true ∧
    (tick cfg st now inp).1.alarmEndTime = st.alarmEndTime ∧
    (tick cfg st now inp).1.potentialEarthquake = false ∧
    (tick cfg st now inp).1.shakeStartTime = 0 := by
  have hts : tick cfg st now inp =
      (alarmStep cfg { st with lastShakeSampleTime := now, potentialEarthquake := false, shakeStartTime := 0 } now, some (confirmEvent cfg st now inp)) := by
    rw [tick_def, soundStep_quiet cfg st now inp hq,
      shakeStep_ignore cfg _ now inp (by simpa using hpe) hacc (by simpa using hdur)
        (by simpa using hsnd)]
  refine ⟨by simp [hts], by simp [confirmEvent, hsnd], ?_, ?_, ?_⟩ <;> simp [hts]

/-- A tick at or past the alarm deadline that does not re-trigger (its
emission, if any, is sound-correlated) forces the safe output pattern and
leaves the alarm deadline unchanged, whatever the shake input does. -/
theorem tick_no_retrigger_safe (hend : st.alarmEndTime ≤ now)
    (hcor : ∀ ev, (tick cfg st now inp).2 = some ev → ev.isSoundCorrelated = true) :
    (tick cfg st now inp).1.buzzerOn = false ∧
    (tick cfg st now inp).1.redOn = false ∧
    (tick cfg st now inp).1.greenOn = true ∧
    (tick cfg st now inp).1.alarmEndTime = st.alarmEndTime := by
  have hpres : (shakeStep cfg (soundStep cfg st now inp) now inp).1.alarmEndTime =
      st.alarmEndTime := by
    rcases shakeStep_retrigger_char cfg (soundStep cfg st now inp) now inp with h | ⟨ev, hev, hf⟩
    · rw [h, soundStep_alarmEndTime]
    · have htr := hcor ev (by rw [tick_def]; exact hev)
      rw [htr] at hf
      cases hf
  refine ⟨?_, ?_, ?_, ?_⟩ <;>
  · rw [tick_def, alarmStep_expired cfg _ now (by rw [hpres]; exact hend)]
    try simp [hpres]

/-- A below-threshold tick with the reset timeout expired resets the session. -/
theorem tick_below_reset (hacc : inp.horizontalAccel ≤ cfg.shakeThreshold)
    (hpe : st.potentialEarthquake = true)
    (h : cfg.shakeResetTimeout < now - st.lastShakeSampleTime) :
    (tick cfg st now inp).2 = none ∧
    (tick cfg st now inp).1.potentialEarthquake = false ∧
    (tick cfg st now inp).1.shakeStartTime = 0 := by
  have hts : tick cfg st now inp =
      (alarmStep cfg { (soundStep cfg st now inp) with potentialEarthquake := false, shakeStartTime := 0 } now, none) := by
    rw [tick_def, shakeStep_below_reset cfg _ now inp hacc (by simpa using hpe)
      (by simpa using h)]
  refine ⟨by simp [hts], ?_, ?_⟩ <;> simp [hts]

/-- A below-threshold tick that does not trip the reset timeout leaves the
detector fields unchanged and emits nothing. -/
theorem tick_below_keep (hacc : inp.horizontalAccel ≤ cfg.shakeThreshold)
    (h : st.potentialEarthquake = false ∨ now - st.lastShakeSampleTime ≤ cfg.shakeResetTimeout) :
    (tick cfg st now inp).2 = none ∧
    (tick cfg st now inp).1.potentialEarthquake = st.potentialEarthquake ∧
    (tick cfg st now inp).1.shakeStartTime = st.shakeStartTime := by
  have hts : tick cfg st now inp =
      (alarmStep cfg (soundStep cfg st now inp) now, none) := by
    rw [tick_def, shakeStep_below_noreset cfg _ now inp hacc (by simpa using h)]
  refine ⟨by simp [hts], ?_, ?_⟩ <;> simp [hts]

end MoreStepLemmas

section RunLemmas

variable {α : Type*} [LinearOrderedField α]

/-- While a session is in progress and every tick stays above the shake
threshold without reaching MIN_SHAKE_DURATION, and the sound stays quiet, the
run emits nothing and leaves the detector in Analyzing with its session data
and the alarm deadline untouched. -/
theorem runTicks_analyzing (cfg : Config α) (st : FirmwareState) (l : List (ℕ × Input α))
    (hpe : st.potentialEarthquake = true)
    (hl : ∀ ti ∈ l, cfg.shakeThreshold < ti.2.horizontalAccel ∧
          ti.1 - st.shakeStartTime ≤ cfg.minShakeDuration ∧
          ti.2.soundLevel ≤ st.baselineSound + cfg.soundThreshold) :
    (runTicks cfg st l).2 = [] ∧
    (runTicks cfg st l).1.potentialEarthquake = true ∧
    (runTicks cfg st l).1.shakeStartTime = st.shakeStartTime ∧
    (runTicks cfg st l).1.lastSoundSpikeTime = st.lastSoundSpikeTime ∧
    (runTicks cfg st l).1.baselineSound = st.baselineSound ∧
    (runTicks cfg st l).1.alarmEndTime = st.alarmEndTime := by
  induction l generalizing st with
  | nil => simp [hpe]
  | cons ti l ih =>
    obtain ⟨hacc, hdur, hq⟩ := hl ti (List.mem_cons_self ti l)
    have hts : tick cfg st ti.1 ti.2 =
        (alarmStep cfg { st with lastShakeSampleTime := ti.1 } ti.1, none) := by
      rw [tick_def, soundStep_quiet cfg st ti.1 ti.2 hq,
          shakeStep_continue cfg st ti.1 ti.2 hpe hacc hdur]
    have h1 : (tick cfg st ti.1 ti.2).1.potentialEarthquake = true := by simp [hts, hpe]
    have h2 : (tick cfg st ti.1 ti.2).1.shakeStartTime = st.shakeStartTime := by simp [hts]
    have h3 : (tick cfg st ti.1 ti.2).1.lastSoundSpikeTime = st.lastSoundSpikeTime := by
      simp [hts]
    have h4 : (tick cfg st ti.1 ti.2).1.baselineSound = st.baselineSound := by simp [hts]
    have h5 : (tick cfg st ti.1 ti.2).1.alarmEndTime = st.alarmEndTime := by simp [hts]
    have hl' : ∀ ti2 ∈ l, cfg.shakeThreshold < ti2.2.horizontalAccel ∧
        ti2.1 - (tick cfg st ti.1 ti.2).1.shakeStartTime ≤ cfg.minShakeDuration ∧
        ti2.2.soundLevel ≤ (tick cfg st ti.1 ti.2).1.baselineSound + cfg.soundThreshold := by
      intro ti2 hm
      obtain ⟨a, b, c⟩ := hl ti2 (List.mem_cons_of_mem ti hm)
      exact ⟨a, h2 ▸ b, h4 ▸ c⟩
    obtain ⟨g0, g1, g2, g3, g4, g5⟩ := ih (tick cfg st ti.1 ti.2).1 h1 hl'
    rw [runTicks_cons]
    refine ⟨?_, g1, h2 ▸ g2, h3 ▸ g3, h4 ▸ g4, h5 ▸ g5⟩
    rw [g0]
    simp [hts]

/-- While the input stays at or below the shake threshold, the run emits
nothing, never touches lastShakeSampleTime, and the detector is either still
exactly as it started or has been reset to Idle. -/
theorem runTicks_below (cfg : Config α) (st : FirmwareState) (l : List (ℕ × Input α))
    (hl : ∀ ti ∈ l, ti.2.horizontalAccel ≤ cfg.shakeThreshold) :
    (runTicks cfg st l).2 = [] ∧
    (runTicks cfg st l).1.lastShakeSampleTime = st.lastShakeSampleTime ∧
    (((runTicks cfg st l).1.potentialEarthquake = st.potentialEarthquake ∧
      (runTicks cfg st l).1.shakeStartTime = st.shakeStartTime) ∨
     ((runTicks cfg st l).1.potentialEarthquake = false ∧
      (runTicks cfg st l).1.shakeStartTime = 0)) := by
  induction l generalizing st with
  | nil => simp
  | cons ti l ih =>
    have hacc := hl ti (List.mem_cons_self ti l)
    have hl' : ∀ ti2 ∈ l, ti2.2.horizontalAccel ≤ cfg.shakeThreshold :=
      fun ti2 hm => hl ti2 (List.mem_cons_of_mem ti hm)
    by_cases hres : st.potentialEarthquake = true ∧
        cfg.shakeResetTimeout < ti.1 - st.lastShakeSampleTime
    · have hts : tick cfg st ti.1 ti.2 =
          (alarmStep cfg ({ (soundStep cfg st ti.1 ti.2) with
            potentialEarthquake := false, shakeStartTime := 0 }) ti.1,
           (none : Option (SeismicEvent α))) := by
        rw [tick_def, shakeStep_below_reset cfg _ ti.1 ti.2 hacc (by simp [hres.1])
          (by simpa using hres.2)]
      obtain ⟨g0, g1, g2⟩ := ih (tick cfg st ti.1 ti.2).1 hl'
      rw [runTicks_cons]
      refine ⟨by rw [g0]; simp [hts], ?_, ?_⟩
      · rw [g1]; simp [hts]
      · rcases g2 with ⟨a, b⟩ | ⟨a, b⟩
        · right
          constructor
          · rw [a]; simp [hts]
          · rw [b]; simp [hts]
        · right; exact ⟨a, b⟩
    · have hside : st.potentialEarthquake = false ∨
          ti.1 - st.lastShakeSampleTime ≤ cfg.shakeResetTimeout := by
        by_cases hpe : st.potentialEarthquake = true
        · right
          rcases not_and_or.mp hres with h | h
          · exact absurd hpe h
          · exact not_lt.mp h
        · left; exact Bool.not_eq_true _ ▸ (by simpa using hpe)
      have hts : tick cfg st ti.1 ti.2 =
          (alarmStep cfg (soundStep cfg st ti.1 ti.2) ti.1,
           (none : Option (SeismicEvent α))) := by
        rw [tick_def, shakeStep_below_noreset cfg _ ti.1 ti.2 hacc (by simpa using hside)]
      obtain ⟨g0, g1, g2⟩ := ih (tick cfg st ti.1 ti.2).1 hl'
      rw [runTicks_cons]
      refine ⟨by rw [g0]; simp [hts], ?_, ?_⟩
      · rw [g1]; simp [hts]
      · rcases g2 with ⟨a, b⟩ | ⟨a, b⟩
        · left
          constructor
          · rw [a]; simp [hts]
          · rw [b]; simp [hts]
        · right; exact ⟨a, b⟩

/-- Once the alarm deadline is in the past, a nonempty run of ticks that stay
at or past the deadline and at or below the shake threshold keeps the outputs
in the safe pattern and never changes the deadline. -/
theorem runTicks_safe (cfg : Config α) (st : FirmwareState) (l : List (ℕ × Input α))
    (hne : l ≠ [])
    (hl : ∀ ti ∈ l, st.alarmEndTime ≤ ti.1 ∧ ti.2.horizontalAccel ≤ cfg.shakeThreshold) :
    (runTicks cfg st l).1.buzzerOn = false ∧
    (runTicks cfg st l).1.redOn = false ∧
    (runTicks cfg st l).1.greenOn = true ∧
    (runTicks cfg st l).1.alarmEndTime = st.alarmEndTime := by
  induction l generalizing st with
  | nil => exact absurd rfl hne
  | cons ti l ih =>
    obtain ⟨hend, hacc⟩ := hl ti (List.mem_cons_self ti l)
    obtain ⟨o1, o2, o3, o4, _⟩ := tick_expired_safe cfg st ti.1 ti.2 hacc hend
    rcases eq_or_ne l [] with rfl | hne2
    · rw [runTicks_cons]
      simpa using ⟨o1, o2, o3, o4⟩
    · have hl' : ∀ ti2 ∈ l, (tick cfg st ti.1 ti.2).1.alarmEndTime ≤ ti2.1 ∧
          ti2.2.horizontalAccel ≤ cfg.shakeThreshold := by
        intro ti2 hm
        obtain ⟨a, b⟩ := hl ti2 (List.mem_cons_of_mem ti hm)
        exact ⟨o4 ▸ a, b⟩
      obtain ⟨g1, g2, g3, g4⟩ := ih (tick cfg st ti.1 ti.2).1 hne2 hl'
      rw [runTicks_cons]
      exact ⟨g1, g2, g3, by rw [g4, o4]⟩

/-- Once the alarm deadline is in the past, a nonempty run of ticks that stay
at or past the deadline and never re-trigger (every event the run emits is
sound-correlated) keeps the outputs in the safe pattern and never changes the
deadline, whatever the accelerations do. -/
theorem runTicks_no_retrigger_safe (cfg : Config α) (st : FirmwareState)
    (l : List (ℕ × Input α)) (hne : l ≠ [])
    (htime : ∀ ti ∈ l, st.alarmEndTime ≤ ti.1)
    (hcor : ∀ ev ∈ (runTicks cfg st l).2, ev.isSoundCorrelated = true) :
    (runTicks cfg st l).1.buzzerOn = false ∧
    (runTicks cfg st l).1.redOn = false ∧
    (runTicks cfg st l).1.greenOn = true ∧
    (runTicks cfg st l).1.alarmEndTime = st.alarmEndTime := by
  induction l generalizing st with
  | nil => exact absurd rfl hne
  | cons ti l ih =>
    have hhead : ∀ ev, (tick cfg st ti.1 ti.2).2 = some ev → ev.isSoundCorrelated = true := by
      intro ev hev
      apply hcor ev
      rw [runTicks_cons, hev]
      simp
    obtain ⟨o1, o2, o3, o4⟩ :=
      tick_no_retrigger_safe cfg st ti.1 ti.2 (htime ti (List.mem_cons_self ti l)) hhead
    rcases eq_or_ne l [] with rfl | hne2
    · rw [runTicks_cons]
      simpa using ⟨o1, o2, o3, o4⟩
    · have htime' : ∀ ti2 ∈ l, (tick cfg st ti.1 ti.2).1.alarmEndTime ≤ ti2.1 := by
        intro ti2 hm
        rw [o4]
        exact htime ti2 (List.mem_cons_of_mem ti hm)
      have hcor' : ∀ ev ∈ (runTicks cfg (tick cfg st ti.1 ti.2).1 l).2,
          ev.isSoundCorrelated = true := by
        intro ev hm
        apply hcor ev
        rw [runTicks_cons]
        exact List.mem_append_right _ hm
      obtain ⟨g1, g2, g3, g4⟩ := ih (tick cfg st ti.1 ti.2).1 hne2 htime' hcor'
      rw [runTicks_cons]
      exact ⟨g1, g2, g3, g4.trans o4⟩

end RunLemmas

section Sampler

/-- The per-tick sensor computation of the loop (part_000 lines 135-140):
dynAxis is the absolute deviation from the calibrated baseline, and the
horizontal and total magnitudes are square roots of sums of squares of the
dynamic components, over the real numbers. -/
noncomputable def sampleInput (baseX baseY baseZ x y z : ℝ) (sound : ℤ) : Input ℝ :=
  { dynX := |x - baseX|
    dynY := |y - baseY|
    dynZ := |z - baseZ|
    horizontalAccel := Real.sqrt (|x - baseX| * |x - baseX| + |y - baseY| * |y - baseY|)
    totalAccel := Real.sqrt
      (|x - baseX| * |x - baseX| + |y - baseY| * |y - baseY| + |z - baseZ| * |z - baseZ|)
    soundLevel := sound }

end Sampler

section Serialization

/-- A JSON scalar as produced by the ArduinoJson document writes. -/
inductive JsonVal (α : Type*) where
  | num (x : α)
  | int (n : ℤ)
  | nat (n : ℕ)
  | bool (b : Bool)
  | str (s : String)
  deriving DecidableEq

/-- The JSON object assembled by sendEventToServer of the enhanced firmware
(part_000 lines 270-314), as an ordered key/value list: the six original
fields followed by the six additional 18-feature-model fields. -/
def serializeEvent {α : Type*} (ev : SeismicEvent α) : List (String × JsonVal α) :=
  [("horizontal_accel", JsonVal.num ev.horizontalAccel),
   ("total_accel", JsonVal.num ev.totalAccel),
   ("sound_level", JsonVal.int ev.soundLevel),
   ("sound_correlated", JsonVal.bool ev.isSoundCorrelated),
   ("timestamp", JsonVal.nat ev.timestamp),
   ("device_id", JsonVal.str "ESP32_QuakeSense_001"),
   ("vertical_accel", JsonVal.num ev.verticalAccel),
   ("x_accel", JsonVal.num ev.xAccel),
   ("y_accel", JsonVal.num ev.yAccel),
   ("z_accel", JsonVal.num ev.zAccel),
   ("peak_ground_acceleration", JsonVal.num ev.peakGroundAccel),
   ("duration_ms", JsonVal.nat ev.durationMs)]

/-- The JSON object assembled by sendEventToServer of the legacy firmware
(quakesnse.ino lines 234-267): only the six original fields. -/
def serializeEventLegacy {α : Type*} (ev : SeismicEventLegacy α) :
    List (String × JsonVal α) :=
  [("horizontal_accel", JsonVal.num ev.horizontalAccel),
   ("total_accel", JsonVal.num ev.totalAccel),
   ("sound_level", JsonVal.int ev.soundLevel),
   ("sound_correlated", JsonVal.bool ev.isSoundCorrelated),
   ("timestamp", JsonVal.nat ev.timestamp),
   ("device_id", JsonVal.str "ESP32_QuakeSense_001")]

/-- The twelve RawSeismicEvent field names in the order the design document
lists them. -/
def specFieldNames : List String :=
  ["horizontal_accel", "total_accel", "vertical_accel", "x_accel", "y_accel",
   "z_accel", "peak_ground_acceleration", "sound_level", "sound_correlated",
   "duration_ms", "timestamp", "device_id"]

end Serialization

section Setup

/-- The three indicator outputs (buzzer, red LED, green LED). -/
structure PinOutputs where
  buzzerOn : Bool
  redOn : Bool
  greenOn : Bool
  deriving DecidableEq

/-- The idle/safe output pattern written by setup (buzzer LOW, red LOW,
green HIGH) and by the alarm handler after expiry. -/
def safePattern : PinOutputs :=
  { buzzerOn := false, redOn := false, greenOn := true }

/-- Result of running setup: either armed and falling through to the loop, or
spinning forever in the `while (1) delay` of the accelerometer check.  The
recorded pins are the lasting output state; serialErrorShown records the
one-time ERROR print. -/
inductive SetupOutcome where
  | haltedForever (pins : PinOutputs) (serialErrorShown : Bool)
  | armed (pins : PinOutputs)
  deriving DecidableEq

/-- The setup function of both firmware variants: pins are initialized to the
safe pattern; if `lis.begin` fails the device prints an error once and loops
forever with the pins untouched, otherwise calibration runs and the system
arms. -/
def setupFirmware (lisFound : Bool) : SetupOutcome :=
  if lisFound then SetupOutcome.armed safePattern
  else SetupOutcome.haltedForever safePattern true

end Setup

section Fixtures

/-- A concrete Idle firmware state, as after calibration at boot. -/
def idleState : FirmwareState :=
  { shakeStartTime := 0, lastShakeSampleTime := 0, potentialEarthquake := false,
    lastSoundSpikeTime := 0, baselineSound := 0, alarmEndTime := 0,
    lastBlinkTime := 0, blinkState := false, wasInAlarm := false,
    buzzerOn := false, redOn := false, greenOn := true }

/-- A concrete Analyzing state: session opened at 1000 ms, last above-threshold
sample seen at 1040 ms, no sound spike since boot. -/
def analyzingState : FirmwareState :=
  { idleState with potentialEarthquake := true, shakeStartTime := 1000, lastShakeSampleTime := 1040 }

/-- Above-threshold quiet sample. -/
def aboveInput : Input ℚ :=
  { dynX := 1, dynY := 1, dynZ := 0, horizontalAccel := 1, totalAccel := 2, soundLevel := 0 }

/-- Below-threshold quiet sample. -/
def belowInput : Input ℚ :=
  { dynX := 0, dynY := 0, dynZ := 0, horizontalAccel := 0, totalAccel := 0, soundLevel := 0 }

/-- Above-threshold sample with a sound reading far above
baselineSound + SOUND_THRESHOLD. -/
def loudInput : Input ℚ :=
  { aboveInput with soundLevel := 5000 }

/-- A concrete legacy-firmware event. -/
def legacyEventExample : SeismicEventLegacy ℚ :=
  { horizontalAccel := 1, totalAccel := 1, soundLevel := 0, isSoundCorrelated := false, timestamp := 0 }

end Fixtures

section Claims

/-- C1: a RawSeismicEvent is handed to sendEventToServer if and only if the
tick finds the detector Analyzing (potentialEarthquake set), the sample still
above SHAKE_THRESHOLD and the session age strictly past MIN_SHAKE_DURATION
(the transition out of Analyzing into Confirmed or IgnoredSoundCorrelated);
and at the emitting tick the session state is destroyed (potentialEarthquake
cleared, shakeStartTime zeroed), so a ShakeSession can emit at most once. -/
theorem emission_iff_terminal_decision {α : Type*} [LinearOrderedField α]
    (cfg : Config α) (st : FirmwareState) (now : ℕ) (inp : Input α) :
    ((tick cfg st now inp).2.isSome ↔
      cfg.shakeThreshold < inp.horizontalAccel ∧ st.potentialEarthquake = true ∧
      cfg.minShakeDuration < now - st.shakeStartTime) ∧
    (∀ ev : SeismicEvent α, (tick cfg st now inp).2 = some ev →
      (tick cfg st now inp).1.potentialEarthquake = false ∧
      (tick cfg st now inp).1.shakeStartTime = 0) := by
  constructor
  · rw [tick_emit_eq]
    by_cases hc : cfg.shakeThreshold < inp.horizontalAccel ∧ st.potentialEarthquake = true ∧
        cfg.minShakeDuration < now - st.shakeStartTime
    · simp [hc]
    · simp [hc]
  · intro ev h
    exact tick_emit_state cfg st now inp ev h

theorem emission_iff_terminal_decision_witness :
    (tick enhancedConfig analyzingState 1300 aboveInput).2.isSome ∧
    (tick enhancedConfig analyzingState 1300 aboveInput).1.potentialEarthquake = false ∧
    (tick enhancedConfig analyzingState 1300 aboveInput).1.shakeStartTime = 0 := by
  obtain ⟨hiff, hdes⟩ :=
    emission_iff_terminal_decision enhancedConfig analyzingState 1300 aboveInput
  have h1 : (tick enhancedConfig analyzingState 1300 aboveInput).2.isSome :=
    hiff.mpr ⟨by decide, by decide, by decide⟩
  obtain ⟨ev, hev⟩ := Option.isSome_iff_exists.mp h1
  exact ⟨h1, hdes ev hev⟩

/-- C4: every emitted RawSeismicEvent carries
peakGroundAccel = max(totalAccel, horizontalAccel * 1.2) exactly, computed
from the horizontal and total accelerations of the confirmation tick, which
are also the values stored in the event. -/
theorem emitted_peak_ground_accel_formula {α : Type*} [LinearOrderedField α]
    (cfg : Config α) (st : FirmwareState) (now : ℕ) (inp : Input α) (ev : SeismicEvent α)
    (h : (tick cfg st now inp).2 = some ev) :
    ev.peakGroundAccel = max inp.totalAccel (inp.horizontalAccel * (6 / 5)) ∧
    ev.totalAccel = inp.totalAccel ∧
    ev.horizontalAccel = inp.horizontalAccel := by
  rw [tick_emit_eq] at h
  by_cases hc : cfg.shakeThreshold < inp.horizontalAccel ∧ st.potentialEarthquake = true ∧
      cfg.minShakeDuration < now - st.shakeStartTime
  · rw [if_pos hc] at h
    cases h
    exact ⟨rfl, rfl, rfl⟩
  · rw [if_neg hc] at h
    exact absurd h (Option.noConfusion)

theorem emitted_peak_ground_accel_formula_witness :
    (confirmEvent enhancedConfig analyzingState 1300 aboveInput).peakGroundAccel =
      max aboveInput.totalAccel (aboveInput.horizontalAccel * (6 / 5)) := by
  exact (emitted_peak_ground_accel_formula enhancedConfig analyzingState 1300 aboveInput
    (confirmEvent enhancedConfig analyzingState 1300 aboveInput) (by rfl)).1

/-- C10: an event is only emitted on a tick whose sample is strictly above
SHAKE_THRESHOLD_MS2, and for samples produced by the sqrt computation of the loop
the stored horizontal acceleration never exceeds the stored total
acceleration, since the total adds the non-negative squared vertical
component under the square root. -/
theorem emitted_event_above_threshold_le_total (cfg : Config ℝ) (st : FirmwareState)
    (now : ℕ) (baseX baseY baseZ x y z : ℝ) (sound : ℤ) (ev : SeismicEvent ℝ)
    (h : (tick cfg st now (sampleInput baseX baseY baseZ x y z sound)).2 = some ev) :
    cfg.shakeThreshold < ev.horizontalAccel ∧ ev.horizontalAccel ≤ ev.totalAccel := by
  rw [tick_emit_eq] at h
  by_cases hc : cfg.shakeThreshold <
      (sampleInput baseX baseY baseZ x y z sound).horizontalAccel ∧
      st.potentialEarthquake = true ∧ cfg.minShakeDuration < now - st.shakeStartTime
  · rw [if_pos hc] at h
    cases h
    refine ⟨hc.1, ?_⟩
    show (sampleInput baseX baseY baseZ x y z sound).horizontalAccel ≤
      (sampleInput baseX baseY baseZ x y z sound).totalAccel
    unfold sampleInput
    exact Real.sqrt_le_sqrt (le_add_of_nonneg_right (mul_self_nonneg _))
  · rw [if_neg hc] at h
    exact absurd h (Option.noConfusion)

/-- Thresholds of the enhanced variant over the reals, for the sampler-level
witness. -/
noncomputable def realConfig : Config ℝ :=
  { shakeThreshold := 7 / 10
    soundThreshold := 2000
    minShakeDuration := 250
    shakeResetTimeout := 150
    soundCorrelationWindow := 1000
    alarmDuration := 10000
    blinkInterval := 300 }

theorem emitted_event_above_threshold_le_total_witness :
    ∃ ev : SeismicEvent ℝ,
      (tick realConfig analyzingState 1300 (sampleInput 0 0 0 3 4 0 0)).2 = some ev ∧
      realConfig.shakeThreshold < ev.horizontalAccel ∧ ev.horizontalAccel ≤ ev.totalAccel := by
  have hH : (sampleInput (0:ℝ) 0 0 3 4 0 0).horizontalAccel = 5 := by
    unfold sampleInput
    rw [show |(3:ℝ) - 0| * |3 - 0| + |4 - 0| * |4 - 0| = 5 ^ 2 by norm_num]
    exact Real.sqrt_sq (by norm_num)
  have hsome : (tick realConfig analyzingState 1300 (sampleInput 0 0 0 3 4 0 0)).2 =
      some (confirmEvent realConfig
        (soundStep realConfig analyzingState 1300 (sampleInput 0 0 0 3 4 0 0))
        1300 (sampleInput 0 0 0 3 4 0 0)) := by
    rw [tick_emit_eq, if_pos ⟨by rw [hH]; norm_num [realConfig], by decide, by decide⟩]
  exact ⟨_, hsome, emitted_event_above_threshold_le_total realConfig analyzingState 1300
    0 0 0 3 4 0 0 _ hsome⟩

/-- C6 counterexample: the legacy firmware variant (quakesnse.ino) also emits
RawSeismicEvents, but serializes only six keys, so its key set is not a
permutation of the twelve field names required by the design document: for
the concrete legacy event below, vertical_accel is missing. -/
theorem legacy_serialization_not_twelve_fields :
    ¬ ((serializeEventLegacy legacyEventExample).map Prod.fst).Perm specFieldNames ∧
    "vertical_accel" ∉ ((serializeEventLegacy legacyEventExample).map Prod.fst) := by
  constructor
  · decide
  · decide

/-- C6 amended: events serialized by the enhanced firmware (part_000) carry
exactly the twelve documented field names, no field missing and none extra;
the legacy variant (quakesnse.ino) serializes exactly the six original
fields. -/
theorem serialized_field_names {α : Type*} (ev : SeismicEvent α)
    (evL : SeismicEventLegacy α) :
    ((serializeEvent ev).map Prod.fst).Perm specFieldNames ∧
    (serializeEventLegacy evL).map Prod.fst =
      ["horizontal_accel", "total_accel", "sound_level", "sound_correlated",
       "timestamp", "device_id"] := by
  constructor
  · show (["horizontal_accel", "total_accel", "sound_level", "sound_correlated",
      "timestamp", "device_id", "vertical_accel", "x_accel", "y_accel", "z_accel",
      "peak_ground_acceleration", "duration_ms"]).Perm specFieldNames
    decide
  · rfl

/-- C9 counterexample: on accelerometer failure the device does halt, but its
persistent pin state is exactly the safe pattern, and a normal Idle tick of
the armed loop drives exactly the same pins, so the fault indicator is not
distinguishable from the normal idle signal. -/
theorem halt_pattern_matches_idle_pattern :
    setupFirmware false = SetupOutcome.haltedForever safePattern true ∧
    (tick enhancedConfig idleState 5000 belowInput).1.buzzerOn = safePattern.buzzerOn ∧
    (tick enhancedConfig idleState 5000 belowInput).1.redOn = safePattern.redOn ∧
    (tick enhancedConfig idleState 5000 belowInput).1.greenOn = safePattern.greenOn := by
  refine ⟨rfl, ?_, ?_, ?_⟩ <;> decide

/-- C9 amended: if the accelerometer is not detected at startup the device
permanently stops normal operation (setup never arms, the loop is never
reached) and prints a one-time serial error message, but the lasting
indicator state is the initial safe pattern (green), identical to normal
idle, not a distinguishable fault signal. -/
theorem accel_failure_halts_forever :
    setupFirmware false = SetupOutcome.haltedForever safePattern true ∧
    (∀ p : PinOutputs, setupFirmware false ≠ SetupOutcome.armed p) := by
  refine ⟨rfl, fun p h => ?_⟩
  exact SetupOutcome.noConfusion h

/-- C5: when the motion of an open session drops to or below SHAKE_THRESHOLD and
stays there, and by the last tick more than SHAKE_RESET_TIMEOUT ms have
passed since the last above-threshold sample, no RawSeismicEvent is emitted
for the session and the detector returns to Idle (potentialEarthquake
cleared, shakeStartTime zeroed).  The conclusion does not need the drop to
happen before MIN_SHAKE_DURATION: below-threshold ticks never emit. -/
theorem reset_timeout_no_event {α : Type*} [LinearOrderedField α]
    (cfg : Config α) (st : FirmwareState) (l : List (ℕ × Input α)) (tn : ℕ) (ifin : Input α)
    (hpe : st.potentialEarthquake = true)
    (hall : ∀ ti ∈ l ++ [(tn, ifin)], ti.2.horizontalAccel ≤ cfg.shakeThreshold)
    (hreset : cfg.shakeResetTimeout < tn - st.lastShakeSampleTime) :
    (runTicks cfg st (l ++ [(tn, ifin)])).2 = [] ∧
    (runTicks cfg st (l ++ [(tn, ifin)])).1.potentialEarthquake = false ∧
    (runTicks cfg st (l ++ [(tn, ifin)])).1.shakeStartTime = 0 := by
  have hl : ∀ ti ∈ l, ti.2.horizontalAccel ≤ cfg.shakeThreshold :=
    fun ti hm => hall ti (List.mem_append_left _ hm)
  have hfin : ifin.horizontalAccel ≤ cfg.shakeThreshold :=
    hall (tn, ifin) (List.mem_append_right _ (List.mem_singleton.mpr rfl))
  obtain ⟨g0, g1, g2⟩ := runTicks_below cfg st l hl
  rw [runTicks_append, runTicks_cons, runTicks_nil]
  rcases g2 with ⟨a, b⟩ | ⟨a, b⟩
  · obtain ⟨e0, e1, e2⟩ := tick_below_reset cfg (runTicks cfg st l).1 tn ifin hfin
      (a.trans hpe) (g1 ▸ hreset)
    refine ⟨?_, by simpa using e1, by simpa using e2⟩
    simp [g0, e0]
  · obtain ⟨e0, e1, e2⟩ := tick_below_keep cfg (runTicks cfg st l).1 tn ifin hfin (Or.inl a)
    refine ⟨?_, by simp [e1, a], by simp [e2, b]⟩
    simp [g0, e0]

theorem reset_timeout_no_event_witness :
    (runTicks enhancedConfig analyzingState ([(1100, belowInput)] ++ [(1300, belowInput)])).2 = [] ∧
    (runTicks enhancedConfig analyzingState
      ([(1100, belowInput)] ++ [(1300, belowInput)])).1.potentialEarthquake = false ∧
    (runTicks enhancedConfig analyzingState
      ([(1100, belowInput)] ++ [(1300, belowInput)])).1.shakeStartTime = 0 :=
  reset_timeout_no_event enhancedConfig analyzingState [(1100, belowInput)] 1300 belowInput
    (by decide) (by decide) (by decide)

/-- C7: while now is before the armed deadline, blinkState flips exactly when
BLINK_INTERVAL has elapsed since lastBlinkTime, with buzzer and red LED
following the new blinkState and green off, and no blink/output change on
other ticks; once the deadline has passed, every tick of a run that stays
past the deadline and does not re-trigger the alarm (alarmEndTime is written
only by the Confirmed branch, whose event is uncorrelated, so a run with only
sound-correlated emissions never re-triggers) keeps the outputs at the safe
pattern (buzzer off, red off, green on) and the deadline unchanged, whatever
the accelerations do. -/
theorem alarm_blink_and_expiry {α : Type*} [LinearOrderedField α]
    (cfg : Config α) (st : FirmwareState) (now : ℕ) (inp : Input α)
    (hdur : 0 < cfg.alarmDuration) :
    (now < st.alarmEndTime → cfg.blinkInterval ≤ now - st.lastBlinkTime →
      (tick cfg st now inp).1.blinkState = !st.blinkState ∧
      (tick cfg st now inp).1.lastBlinkTime = now ∧
      (tick cfg st now inp).1.buzzerOn = !st.blinkState ∧
      (tick cfg st now inp).1.redOn = !st.blinkState ∧
      (tick cfg st now inp).1.greenOn = false) ∧
    (now < st.alarmEndTime → now - st.lastBlinkTime < cfg.blinkInterval →
      (tick cfg st now inp).1.blinkState = st.blinkState ∧
      (tick cfg st now inp).1.lastBlinkTime = st.lastBlinkTime ∧
      (tick cfg st now inp).1.buzzerOn = st.buzzerOn ∧
      (tick cfg st now inp).1.redOn = st.redOn ∧
      (tick cfg st now inp).1.greenOn = st.greenOn) ∧
    (∀ l : List (ℕ × Input α), l ≠ [] →
      (∀ ti ∈ l, st.alarmEndTime ≤ ti.1) →
      (∀ ev ∈ (runTicks cfg st l).2, ev.isSoundCorrelated = true) →
      (runTicks cfg st l).1.buzzerOn = false ∧
      (runTicks cfg st l).1.redOn = false ∧
      (runTicks cfg st l).1.greenOn = true ∧
      (runTicks cfg st l).1.alarmEndTime = st.alarmEndTime) := by
  refine ⟨fun h1 h2 => (tick_blink cfg st now inp hdur h1).1 h2,
          fun h1 h2 => (tick_blink cfg st now inp hdur h1).2 h2,
          fun l hne htime hcor => runTicks_no_retrigger_safe cfg st l hne htime hcor⟩

/-- An Alarming state for the blink witness: armed until 5000 ms, blink
phase due. -/
def alarmingState : FirmwareState :=
  { idleState with alarmEndTime := 5000 }

/-- A post-expiry trace with residual above-threshold motion that resolves
sound-correlated: session opens at 2000, a spike lands at 2050, the session
resolves IgnoredSoundCorrelated at 2251; no tick re-triggers the alarm. -/
def residualTrace : List (ℕ × Input ℚ) :=
  [(2000, aboveInput), (2050, loudInput), (2251, aboveInput)]

theorem alarm_blink_and_expiry_witness :
    ((tick enhancedConfig alarmingState 1000 belowInput).1.blinkState =
      !alarmingState.blinkState ∧
     (tick enhancedConfig alarmingState 1000 belowInput).1.lastBlinkTime = 1000) ∧
    ((runTicks enhancedConfig idleState residualTrace).1.buzzerOn = false ∧
     (runTicks enhancedConfig idleState residualTrace).1.greenOn = true ∧
     (runTicks enhancedConfig idleState residualTrace).1.alarmEndTime =
       idleState.alarmEndTime) := by
  obtain ⟨p1, _, _⟩ :=
    alarm_blink_and_expiry enhancedConfig alarmingState 1000 belowInput (by decide)
  obtain ⟨a1, a2, _, _, _⟩ := p1 (by decide) (by decide)
  obtain ⟨_, _, p3⟩ :=
    alarm_blink_and_expiry enhancedConfig idleState 0 belowInput (by decide)
  obtain ⟨q1, _, q3, q4⟩ := p3 residualTrace (by decide) (by decide) (by decide)
  exact ⟨⟨a1, a2⟩, ⟨q1, q3, q4⟩⟩

/-- C8: the sound and shake phases of a tick never touch the blink fields,
and a Confirmed detection that lands while the alarm is already running
(now < alarmEndTime) sets the shake-phase alarmEndTime to
now + ALARM_DURATION while the blink fields of the tick still follow the ordinary
cadence formula of the alarm handler — the blink phase is not restarted. -/
theorem retrigger_extends_endTime_only {α : Type*} [LinearOrderedField α]
    (cfg : Config α) (st : FirmwareState) (now : ℕ) (inp : Input α)
    (hdur : 0 < cfg.alarmDuration) :
    ((shakeStep cfg (soundStep cfg st now inp) now inp).1.blinkState = st.blinkState ∧
     (shakeStep cfg (soundStep cfg st now inp) now inp).1.lastBlinkTime = st.lastBlinkTime) ∧
    (∀ ev : SeismicEvent α,
      (shakeStep cfg (soundStep cfg st now inp) now inp).2 = some ev →
      ev.isSoundCorrelated = false → now < st.alarmEndTime →
      (shakeStep cfg (soundStep cfg st now inp) now inp).1.alarmEndTime =
        now + cfg.alarmDuration ∧
      (tick cfg st now inp).1.blinkState =
        (if cfg.blinkInterval ≤ now - st.lastBlinkTime then !st.blinkState
         else st.blinkState) ∧
      (tick cfg st now inp).1.lastBlinkTime =
        (if cfg.blinkInterval ≤ now - st.lastBlinkTime then now
         else st.lastBlinkTime)) := by
  refine ⟨⟨by simp, by simp⟩, fun ev hev hcor halarm => ?_⟩
  have hsome : (tick cfg st now inp).2 = some ev := by rw [tick_def]; exact hev
  rw [tick_emit_eq] at hsome
  by_cases hc : cfg.shakeThreshold < inp.horizontalAccel ∧ st.potentialEarthquake = true ∧
      cfg.minShakeDuration < now - st.shakeStartTime
  · rw [if_pos hc] at hsome
    have hevdef : ev = confirmEvent cfg (soundStep cfg st now inp) now inp :=
      (Option.some.injEq _ _ ▸ hsome).symm
    have hsnd : ¬ now - (soundStep cfg st now inp).lastSoundSpikeTime <
        cfg.soundCorrelationWindow := by
      intro hlt
      rw [hevdef] at hcor
      simp [confirmEvent, hlt] at hcor
    have hshake := shakeStep_confirm cfg (soundStep cfg st now inp) now inp
      (by simp [hc.2.1]) hc.1 (by simpa using hc.2.2) hsnd
    have hbl := fun (hb : cfg.blinkInterval ≤ now - st.lastBlinkTime) =>
      (tick_blink cfg st now inp hdur halarm).1 hb
    have hnb := fun (hb : now - st.lastBlinkTime < cfg.blinkInterval) =>
      (tick_blink cfg st now inp hdur halarm).2 hb
    refine ⟨by rw [hshake], ?_, ?_⟩
    · by_cases hb : cfg.blinkInterval ≤ now - st.lastBlinkTime
      · rw [if_pos hb]
        exact (hbl hb).1
      · rw [if_neg hb]
        exact (hnb (not_le.mp hb)).1
    · by_cases hb : cfg.blinkInterval ≤ now - st.lastBlinkTime
      · rw [if_pos hb]
        exact (hbl hb).2.1
      · rw [if_neg hb]
        exact (hnb (not_le.mp hb)).2.1
  · rw [if_neg hc] at hsome
    exact absurd hsome (Option.noConfusion)

/-- An Analyzing state with the alarm already running. -/
def analyzingAlarmingState : FirmwareState :=
  { analyzingState with alarmEndTime := 5000 }

theorem retrigger_extends_endTime_only_witness :
    (shakeStep enhancedConfig (soundStep enhancedConfig analyzingAlarmingState 1300 aboveInput)
      1300 aboveInput).1.alarmEndTime = 1300 + enhancedConfig.alarmDuration ∧
    (tick enhancedConfig analyzingAlarmingState 1300 aboveInput).1.blinkState =
      (if enhancedConfig.blinkInterval ≤ 1300 - analyzingAlarmingState.lastBlinkTime
       then !analyzingAlarmingState.blinkState else analyzingAlarmingState.blinkState) := by
  obtain ⟨_, part2⟩ := retrigger_extends_endTime_only enhancedConfig analyzingAlarmingState
    1300 aboveInput (by decide)
  obtain ⟨r1, r2, _⟩ := part2
    (confirmEvent enhancedConfig analyzingAlarmingState 1300 aboveInput)
    (by rfl) (by decide) (by decide)
  exact ⟨r1, r2⟩

/-- C2: starting Idle, with horizontalAccel above SHAKE_THRESHOLD on every
tick and quiet sound, intermediate ticks at most MIN_SHAKE_DURATION after the
first, and a final tick exactly MIN_SHAKE_DURATION + 1 ms after the first
with no sound spike within SOUND_CORRELATION_WINDOW of it, the run emits
exactly one RawSeismicEvent; its durationMs is now - startTime at the first
tick past the duration threshold, i.e. MIN_SHAKE_DURATION + 1, it is not
sound-correlated, and the detector takes the Confirmed transition, arming the
alarm until that tick plus ALARM_DURATION. -/
theorem sustained_shake_confirmed_single_event {α : Type*} [LinearOrderedField α]
    (cfg : Config α) (st : FirmwareState) (t0 : ℕ) (i0 ifin : Input α)
    (mids : List (ℕ × Input α))
    (hidle : st.potentialEarthquake = false)
    (hall : ∀ ti ∈ (t0, i0) :: (mids ++ [(t0 + cfg.minShakeDuration + 1, ifin)]),
      cfg.shakeThreshold < ti.2.horizontalAccel ∧
      ti.2.soundLevel ≤ st.baselineSound + cfg.soundThreshold)
    (hmid : ∀ ti ∈ mids, ti.1 - t0 ≤ cfg.minShakeDuration)
    (hsound : st.lastSoundSpikeTime + cfg.soundCorrelationWindow ≤
      t0 + cfg.minShakeDuration + 1) :
    ∃ ev : SeismicEvent α,
      (runTicks cfg st
        ((t0, i0) :: (mids ++ [(t0 + cfg.minShakeDuration + 1, ifin)]))).2 = [ev] ∧
      ev.durationMs = cfg.minShakeDuration + 1 ∧
      ev.isSoundCorrelated = false ∧
      (runTicks cfg st
        ((t0, i0) :: (mids ++ [(t0 + cfg.minShakeDuration + 1, ifin)]))).1.alarmEndTime =
        t0 + cfg.minShakeDuration + 1 + cfg.alarmDuration := by
  obtain ⟨ha0, hq0⟩ := hall (t0, i0) (List.mem_cons_self _ _)
  obtain ⟨s0, s1, s2, s3, s4, s5⟩ := tick_start cfg st t0 i0 hidle ha0 hq0
  rw [runTicks_cons]
  set st1 := (tick cfg st t0 i0).1 with hst1def
  have hmids : ∀ ti ∈ mids, cfg.shakeThreshold < ti.2.horizontalAccel ∧
      ti.1 - st1.shakeStartTime ≤ cfg.minShakeDuration ∧
      ti.2.soundLevel ≤ st1.baselineSound + cfg.soundThreshold := by
    intro ti hm
    obtain ⟨a, q⟩ := hall ti (List.mem_cons_of_mem _ (List.mem_append_left _ hm))
    refine ⟨a, ?_, ?_⟩
    · rw [s2]
      exact hmid ti hm
    · rw [s4]
      exact q
  obtain ⟨m0, m1, m2, m3, m4, m5⟩ := runTicks_analyzing cfg st1 mids s1 hmids
  rw [runTicks_append]
  set m := (runTicks cfg st1 mids).1 with hmdef
  have hfin := hall (t0 + cfg.minShakeDuration + 1, ifin)
    (List.mem_cons_of_mem _ (List.mem_append_right _ (List.mem_singleton.mpr rfl)))
  obtain ⟨f0, f1, f2, f3, f4, f5⟩ :=
    tick_confirmed cfg m (t0 + cfg.minShakeDuration + 1) ifin m1 hfin.1
      (by rw [m2, s2]; omega)
      (by rw [m4, s4]; exact hfin.2)
      (by rw [m3, s3]; omega)
  rw [runTicks_cons, runTicks_nil]
  refine ⟨confirmEvent cfg m (t0 + cfg.minShakeDuration + 1) ifin, ?_, ?_, f1, ?_⟩
  · rw [s0, m0, f0]
    simp
  · rw [f2, m2, s2]
    omega
  · exact f3

theorem sustained_shake_confirmed_single_event_witness :
    ∃ ev : SeismicEvent ℚ,
      (runTicks enhancedConfig idleState
        ((2000, aboveInput) :: ([(2100, aboveInput), (2200, aboveInput)] ++
          [(2000 + enhancedConfig.minShakeDuration + 1, aboveInput)]))).2 = [ev] ∧
      ev.durationMs = enhancedConfig.minShakeDuration + 1 ∧
      ev.isSoundCorrelated = false ∧
      (runTicks enhancedConfig idleState
        ((2000, aboveInput) :: ([(2100, aboveInput), (2200, aboveInput)] ++
          [(2000 + enhancedConfig.minShakeDuration + 1, aboveInput)]))).1.alarmEndTime =
        2000 + enhancedConfig.minShakeDuration + 1 + enhancedConfig.alarmDuration :=
  sustained_shake_confirmed_single_event enhancedConfig idleState 2000 aboveInput aboveInput
    [(2100, aboveInput), (2200, aboveInput)] (by decide) (by decide) (by decide) (by decide)

/-- C3: for the same sustained above-threshold motion but with a sound spike
recorded at startTime + 50 ms (inside the SOUND_CORRELATION_WINDOW relative
to the confirmation tick at startTime + MIN_SHAKE_DURATION + 1), the run
emits exactly one RawSeismicEvent with isSoundCorrelated = true, and the
Alarm Controller is never armed by the session: the alarm deadline leaves the
whole run unchanged. -/
theorem correlated_shake_ignored_no_alarm {α : Type*} [LinearOrderedField α]
    (cfg : Config α) (st : FirmwareState) (t0 : ℕ) (i0 ispike ifin : Input α)
    (midsA midsB : List (ℕ × Input α))
    (hidle : st.potentialEarthquake = false)
    (ha0 : cfg.shakeThreshold < i0.horizontalAccel)
    (hq0 : i0.soundLevel ≤ st.baselineSound + cfg.soundThreshold)
    (hA : ∀ ti ∈ midsA, cfg.shakeThreshold < ti.2.horizontalAccel ∧
      ti.2.soundLevel ≤ st.baselineSound + cfg.soundThreshold ∧
      ti.1 - t0 ≤ cfg.minShakeDuration)
    (haspike : cfg.shakeThreshold < ispike.horizontalAccel)
    (hspike : st.baselineSound + cfg.soundThreshold < ispike.soundLevel)
    (h50 : 50 ≤ cfg.minShakeDuration)
    (hB : ∀ ti ∈ midsB, cfg.shakeThreshold < ti.2.horizontalAccel ∧
      ti.2.soundLevel ≤ st.baselineSound + cfg.soundThreshold ∧
      ti.1 - t0 ≤ cfg.minShakeDuration)
    (hafin : cfg.shakeThreshold < ifin.horizontalAccel)
    (hqfin : ifin.soundLevel ≤ st.baselineSound + cfg.soundThreshold)
    (hwin : cfg.minShakeDuration + 1 - 50 < cfg.soundCorrelationWindow) :
    ∃ ev : SeismicEvent α,
      (runTicks cfg st ((t0, i0) :: (midsA ++ (t0 + 50, ispike) ::
        (midsB ++ [(t0 + cfg.minShakeDuration + 1, ifin)])))).2 = [ev] ∧
      ev.isSoundCorrelated = true ∧
      (runTicks cfg st ((t0, i0) :: (midsA ++ (t0 + 50, ispike) ::
        (midsB ++ [(t0 + cfg.minShakeDuration + 1, ifin)])))).1.alarmEndTime =
        st.alarmEndTime := by
  obtain ⟨s0, s1, s2, s3, s4, s5⟩ := tick_start cfg st t0 i0 hidle ha0 hq0
  rw [runTicks_cons]
  set st1 := (tick cfg st t0 i0).1 with hst1def
  have hmidsA : ∀ ti ∈ midsA, cfg.shakeThreshold < ti.2.horizontalAccel ∧
      ti.1 - st1.shakeStartTime ≤ cfg.minShakeDuration ∧
      ti.2.soundLevel ≤ st1.baselineSound + cfg.soundThreshold := by
    intro ti hm
    obtain ⟨a, q, d⟩ := hA ti hm
    refine ⟨a, ?_, ?_⟩
    · rw [s2]
      exact d
    · rw [s4]
      exact q
  obtain ⟨a0, a1, a2, a3, a4, a5⟩ := runTicks_analyzing cfg st1 midsA s1 hmidsA
  rw [runTicks_append]
  set m1 := (runTicks cfg st1 midsA).1 with hm1def
  obtain ⟨p0, p1, p2, p3, p4, p5⟩ :=
    tick_analyzing_spike cfg m1 (t0 + 50) ispike a1 haspike
      (by rw [a2, s2]; omega)
      (by rw [a4, s4]; exact hspike)
  rw [runTicks_cons]
  set m2 := (tick cfg m1 (t0 + 50) ispike).1 with hm2def
  have hmidsB : ∀ ti ∈ midsB, cfg.shakeThreshold < ti.2.horizontalAccel ∧
      ti.1 - m2.shakeStartTime ≤ cfg.minShakeDuration ∧
      ti.2.soundLevel ≤ m2.baselineSound + cfg.soundThreshold := by
    intro ti hm
    obtain ⟨a, q, d⟩ := hB ti hm
    refine ⟨a, ?_, ?_⟩
    · rw [p2, a2, s2]
      exact d
    · rw [p4, a4, s4]
      exact q
  obtain ⟨b0, b1, b2, b3, b4, b5⟩ := runTicks_analyzing cfg m2 midsB p1 hmidsB
  rw [runTicks_append]
  set m3 := (runTicks cfg m2 midsB).1 with hm3def
  obtain ⟨f0, f1, f2, f3, f4⟩ :=
    tick_ignored cfg m3 (t0 + cfg.minShakeDuration + 1) ifin b1 hafin
      (by rw [b2, p2, a2, s2]; omega)
      (by rw [b4, p4, a4, s4]; exact hqfin)
      (by rw [b3, p3]; omega)
  rw [runTicks_cons, runTicks_nil]
  refine ⟨confirmEvent cfg m3 (t0 + cfg.minShakeDuration + 1) ifin, ?_, f1, ?_⟩
  · rw [s0, a0, p0, b0, f0]
    simp
  · rw [f2, b5, p5, a5, s5]

theorem correlated_shake_ignored_no_alarm_witness :
    ∃ ev : SeismicEvent ℚ,
      (runTicks enhancedConfig idleState ((2000, aboveInput) :: ([] ++ (2000 + 50, loudInput) ::
        ([(2100, aboveInput)] ++ [(2000 + enhancedConfig.minShakeDuration + 1, aboveInput)])))).2 =
        [ev] ∧
      ev.isSoundCorrelated = true ∧
      (runTicks enhancedConfig idleState ((2000, aboveInput) :: ([] ++ (2000 + 50, loudInput) ::
        ([(2100, aboveInput)] ++
          [(2000 + enhancedConfig.minShakeDuration + 1, aboveInput)])))).1.alarmEndTime =
        idleState.alarmEndTime :=
  correlated_shake_ignored_no_alarm enhancedConfig idleState 2000 aboveInput loudInput
    aboveInput [] [(2100, aboveInput)] (by decide) (by decide) (by decide) (by decide)
    (by decide) (by decide) (by decide) (by decide) (by decide) (by decide) (by decide)

end Claims

end QuakeSense
